import Mathlib

/-!
Shallow embedding of the synchronization/ingestion core of `backend.py`
(`run_product_ingestion`, `search_products`) from the
langchain-fastapi-mariadb webinar demo.

The relational state is two tables: `products` (the catalog) and
`langchain_embedding` for the single collection `COLLECTION_NAME`
(the index).  Timestamps are modelled as naturals.  The embedding
vector itself is opaque and plays no role in any claim, so an index
entry is modelled by its metadata (`id`, `name`, `category`), its
document text and its `created_at` timestamp.

A note on the ingestion while-loop: in `run_product_ingestion` every
`SELECT` of the loop runs on the pooled `connection` inside a single
transaction (there is an explicit `COMMIT` after the two deletions and
none inside the loop; MariaDB's default isolation level is REPEATABLE
READ), while `vector_store.add_texts` writes through the store's own
separate connection.  The loop therefore paginates over a frozen
snapshot of the missing set, taken right after the deletions; the rows
inserted by `add_texts` are not visible to the loop's own queries.
The loop is embedded accordingly: the missing list is computed once
from the post-deletion state and the loop only advances its offset
(`total_ingested`) over it.
-/

/-- A row of the `products` table: `id` (primary key), `name`,
nullable free-text `description`, `category`, and the
`updated_at` timestamp. -/
structure Product where
  id : Nat
  name : String
  description : Option String
  category : String
  updated_at : Nat
deriving DecidableEq

/-- A row of `langchain_embedding` for the collection: the metadata
fields written by ingestion (`{"id": id, "name": name, "category": category}`),
the embedded document text, and the `created_at` column added by
`run_product_ingestion` (DEFAULT CURRENT_TIMESTAMP). -/
structure Embedding where
  meta_id : Nat
  meta_name : String
  meta_category : String
  document : String
  created_at : Nat
deriving DecidableEq

/-- The database state visible to the synchronizer: the catalog table
and the index entries of the collection. -/
structure DB where
  products : List Product
  embeddings : List Embedding
deriving DecidableEq

/-- MariaDB `TRIM(str)`: removes leading and trailing space characters
(`0x20`) only — unlike Python's `str.strip` or Lean's `String.trim`,
it does not remove tabs or newlines. -/
def sqlTrim (s : String) : String :=
  String.mk (((s.toList.dropWhile (· == ' ')).reverse.dropWhile (· == ' ')).reverse)

/-- The condition `p.description IS NOT NULL AND TRIM(p.description) <> ''`
used by both the stale-deletion and the missing-products queries. -/
def descriptionNotBlank (p : Product) : Bool :=
  match p.description with
  | none => false
  | some s => sqlTrim s != ""

/-- `EXISTS (SELECT 1 FROM products p WHERE p.id = pid)` — whether the
catalog still has a record with the given identity. -/
def existsProduct (products : List Product) (pid : Nat) : Bool :=
  products.any fun p => p.id == pid

/-- The orphan deletion (backend.py lines 100-110): delete every entry of
the collection whose metadata id matches no product (`p.id IS NULL`
after the LEFT JOIN).  Returns the surviving entries. -/
def deleteOrphaned (products : List Product) (embeddings : List Embedding) :
    List Embedding :=
  embeddings.filter fun e => existsProduct products e.meta_id

/-- The stale condition of backend.py lines 113-125: some product row
joins the entry on its metadata id, was updated strictly after the
entry was created, and has a non-blank description. -/
def isOutdated (products : List Product) (e : Embedding) : Bool :=
  products.any fun p =>
    p.id == e.meta_id && decide (e.created_at < p.updated_at) && descriptionNotBlank p

/-- The outdated-embedding deletion (backend.py lines 113-125): delete
every entry whose product was updated after the entry's creation (with
non-blank description).  Returns the surviving entries. -/
def deleteOutdated (products : List Product) (embeddings : List Embedding) :
    List Embedding :=
  embeddings.filter fun e => !isOutdated products e

/-- Insertion step of the sort modelling `ORDER BY p.id`. -/
def insertBy {α : Type} (le : α → α → Bool) (a : α) : List α → List α
  | [] => [a]
  | b :: bs => if le a b then a :: b :: bs else b :: insertBy le a bs

/-- Insertion sort used to model SQL `ORDER BY` deterministically. -/
def sortBy {α : Type} (le : α → α → Bool) : List α → List α
  | [] => []
  | a :: as => insertBy le a (sortBy le as)

/-- The missing-products query of backend.py lines 139-153 (without its
LIMIT/OFFSET): products with a non-blank description and no index
entry carrying their id, ordered by id. -/
def missingProducts (products : List Product) (embeddings : List Embedding) :
    List Product :=
  sortBy (fun a b => decide (a.id ≤ b.id))
    (products.filter fun p =>
      descriptionNotBlank p && !(embeddings.any fun e => e.meta_id == p.id))

/-- The index entry written for a product by `vector_store.add_texts`:
document text from the description, metadata `{id, name, category}`,
`created_at` stamped with the current time by the store. -/
def embeddingOfProduct (now : Nat) (p : Product) : Embedding :=
  { meta_id := p.id
    meta_name := p.name
    meta_category := p.category
    document := p.description.getD ""
    created_at := now }

/-- The observable steps of one synchronizer run, in order. -/
inductive Event where
  | deletedOrphaned (count : Nat)
  | deletedOutdated (count : Nat)
  | ingestedBatch (count : Nat)
deriving DecidableEq

/-- The while-loop of backend.py lines 134-168 over the frozen missing
snapshot: fetch `LIMIT batchSize OFFSET totalIngested`, stop if the
batch is empty, otherwise add one entry per row and advance the offset
by the batch length.  Returns the emitted batch events, the final
`total_ingested`, and the entries added. -/
def ingestLoop (batchSize now : Nat) (missing : List Product) (totalIngested : Nat) :
    List Event × Nat × List Embedding :=
  if h : (missing.drop totalIngested).take batchSize = [] then
    ([], totalIngested, [])
  else
    let rest := ingestLoop batchSize now missing
      (totalIngested + ((missing.drop totalIngested).take batchSize).length)
    (Event.ingestedBatch ((missing.drop totalIngested).take batchSize).length :: rest.1,
     rest.2.1,
     ((missing.drop totalIngested).take batchSize).map (embeddingOfProduct now) ++ rest.2.2)
termination_by missing.length - totalIngested
decreasing_by
  have h1 : 0 < ((missing.drop totalIngested).take batchSize).length :=
    List.length_pos.mpr h
  have h2 : totalIngested < missing.length := by
    by_contra hc
    push_neg at hc
    rw [List.drop_eq_nil_of_le hc] at h
    simp at h
  omega

/-- Entries of the collection surviving the orphan deletion. -/
def afterOrphans (db : DB) : List Embedding :=
  deleteOrphaned db.products db.embeddings

/-- Entries of the collection surviving both deletions. -/
def cleanedEmbeddings (db : DB) : List Embedding :=
  deleteOutdated db.products (afterOrphans db)

/-- `cursor.rowcount` of the orphan DELETE. -/
def numOrphaned (db : DB) : Nat :=
  db.embeddings.length - (afterOrphans db).length

/-- `cursor.rowcount` of the outdated DELETE. -/
def numOutdated (db : DB) : Nat :=
  (afterOrphans db).length - (cleanedEmbeddings db).length

/-- The frozen missing snapshot the ingestion loop paginates over:
the missing-products query evaluated right after the two deletions. -/
def missingAfterCleaning (db : DB) : List Product :=
  missingProducts db.products (cleanedEmbeddings db)

/-- The outcome of one synchronizer run. -/
structure RunResult where
  events : List Event
  orphanedCount : Nat
  outdatedCount : Nat
  totalIngested : Nat
  final : DB
deriving DecidableEq

/-- One full run of `run_product_ingestion` (backend.py lines 91-170) at
time `now` with the configured `EMBEDDING_BATCH_SIZE`: delete orphaned
entries, delete outdated entries, then ingest the missing products in
offset-paginated batches. -/
def run_product_ingestion (batchSize now : Nat) (db : DB) : RunResult :=
  { events := Event.deletedOrphaned (numOrphaned db) ::
      Event.deletedOutdated (numOutdated db) ::
      (ingestLoop batchSize now (missingAfterCleaning db) 0).1
    orphanedCount := numOrphaned db
    outdatedCount := numOutdated db
    totalIngested := (ingestLoop batchSize now (missingAfterCleaning db) 0).2.1
    final := { products := db.products
               embeddings := cleanedEmbeddings db ++
                 (ingestLoop batchSize now (missingAfterCleaning db) 0).2.2 } }

/-- Results projected by the `/search-products` endpoint. -/
structure SearchResult where
  id : Nat
  name : String
  description : String
deriving DecidableEq

/-- Modelled from the spec: `MariaDBStore.similarity_search` of
`langchain_mariadb` is not part of this repository.  Per the spec's
Index Store Adapter contract it "returns up to `k` nearest entries in
the collection matching `metadata_filter` exactly (e.g., category
equality), ordered by decreasing similarity".  The similarity scoring
is opaque and taken as a parameter `score`. -/
def similarity_search (score : String → String → Nat) (embeddings : List Embedding)
    (query : String) (k : Nat) (category : String) : List Embedding :=
  (sortBy (fun a b => decide (score query b.document ≤ score query a.document))
    (embeddings.filter fun e => e.meta_category == category)).take k

/-- The `/search-products` endpoint (backend.py lines 189-203): delegate
to `similarity_search` with the exact-match filter on the category
metadata and project each document to `{id, name, description}`. -/
def search_products (score : String → String → Nat) (db : DB)
    (search_query category : String) (k : Nat) : List SearchResult :=
  (similarity_search score db.embeddings search_query k category).map fun doc =>
    { id := doc.meta_id, name := doc.meta_name, description := doc.document }

/-- The control state of the ingestion while-loop: either about to run
another iteration at offset `totalIngested`, or finished. -/
inductive IngestPhase where
  | ingesting (totalIngested : Nat)
  | done (totalIngested : Nat)
deriving DecidableEq

/-- One iteration of the while-loop of backend.py lines 137-168 as a
step function over the frozen missing snapshot: fetch the batch at the
current offset; if it is empty the loop exits, otherwise the offset
advances by the batch length. -/
def ingestStep (batchSize : Nat) (missing : List Product) :
    IngestPhase → IngestPhase
  | IngestPhase.ingesting t =>
      if ((missing.drop t).take batchSize).isEmpty then IngestPhase.done t
      else IngestPhase.ingesting (t + ((missing.drop t).take batchSize).length)
  | IngestPhase.done t => IngestPhase.done t

/-- The sequence of batch sizes produced by paginating `n` remaining
rows with page size `batchSize`. -/
def chunkSizes (batchSize n : Nat) : List Nat :=
  if batchSize = 0 ∨ n = 0 then []
  else min batchSize n :: chunkSizes batchSize (n - batchSize)
termination_by n
decreasing_by omega

lemma insertBy_perm {α : Type} (le : α → α → Bool) (a : α) (l : List α) :
    (insertBy le a l).Perm (a :: l) := by
  induction l with
  | nil => simp [insertBy]
  | cons b bs ih =>
      by_cases h : le a b
      · simp [insertBy, h]
      · simp only [insertBy, h, if_neg]
        exact ((ih.cons b).trans (List.Perm.swap a b bs)).symm.symm

lemma sortBy_perm {α : Type} (le : α → α → Bool) (l : List α) :
    (sortBy le l).Perm l := by
  induction l with
  | nil => simp [sortBy]
  | cons a as ih =>
      exact (insertBy_perm le a (sortBy le as)).trans (ih.cons a)

lemma missingProducts_perm (products : List Product) (embeddings : List Embedding) :
    (missingProducts products embeddings).Perm
      (products.filter fun p =>
        descriptionNotBlank p && !(embeddings.any fun e => e.meta_id == p.id)) :=
  sortBy_perm _ _

lemma mem_missingProducts {products : List Product} {embeddings : List Embedding}
    {p : Product} :
    p ∈ missingProducts products embeddings ↔
      p ∈ products ∧ descriptionNotBlank p = true ∧
        (embeddings.any fun e => e.meta_id == p.id) = false := by
  rw [(missingProducts_perm products embeddings).mem_iff, List.mem_filter]
  simp [Bool.and_eq_true]

lemma ingestLoop_nil (batchSize now t : Nat) :
    ingestLoop batchSize now [] t = ([], t, []) := by
  rw [ingestLoop]
  simp

lemma ingestLoop_zero_batch (now : Nat) (missing : List Product) (t : Nat) :
    ingestLoop 0 now missing t = ([], t, []) := by
  rw [ingestLoop]
  simp

lemma drop_take_length {α : Type} (l : List α) (n : Nat) :
    l.drop ((l.take n).length) = l.drop n := by
  rcases le_total n l.length with h | h
  · have hn : (l.take n).length = n := by rw [List.length_take]; omega
    rw [hn]
  · have hn : (l.take n).length = l.length := by rw [List.length_take]; omega
    rw [hn, List.drop_length, List.drop_eq_nil_of_le h]

lemma take_append_drop_length {α : Type} (l : List α) (n : Nat) :
    l.take n ++ l.drop ((l.take n).length) = l := by
  rw [drop_take_length, List.take_append_drop]

lemma length_filter_add_length_filter_not {α : Type} (p : α → Bool) (l : List α) :
    (l.filter p).length + (l.filter fun a => !p a).length = l.length := by
  induction l with
  | nil => simp
  | cons a as ih =>
      cases h : p a <;> simp [List.filter_cons, h] <;> omega

theorem ingestLoop_spec (batchSize now : Nat) (hB : 0 < batchSize)
    (missing : List Product) (t : Nat) :
    ingestLoop batchSize now missing t =
      ((chunkSizes batchSize (missing.length - t)).map Event.ingestedBatch,
       max t missing.length,
       (missing.drop t).map (embeddingOfProduct now)) := by
  rw [ingestLoop]
  split
  · next h =>
      rcases List.take_eq_nil_iff.mp h with h0 | h0
      · omega
      · have hle : missing.length ≤ t := List.drop_eq_nil_iff.mp h0
        rw [chunkSizes]
        simp [Nat.sub_eq_zero_of_le hle, h0, Nat.max_eq_left hle]
  · next h =>
      have hlen : ((missing.drop t).take batchSize).length =
          min batchSize (missing.length - t) := by
        rw [List.length_take, List.length_drop]
      have hpos : 0 < ((missing.drop t).take batchSize).length :=
        List.length_pos.mpr h
      have htlt : t < missing.length := by
        by_contra hc
        push_neg at hc
        rw [List.drop_eq_nil_of_le hc] at h
        simp at h
      have IH := ingestLoop_spec batchSize now hB missing
        (t + ((missing.drop t).take batchSize).length)
      simp only [IH]
      have hc : chunkSizes batchSize (missing.length - t) =
          min batchSize (missing.length - t) ::
            chunkSizes batchSize ((missing.length - t) - batchSize) := by
        rw [chunkSizes]
        have : ¬(batchSize = 0 ∨ missing.length - t = 0) := by omega
        rw [if_neg this]
      have hsub : missing.length - (t + ((missing.drop t).take batchSize).length) =
          (missing.length - t) - batchSize := by omega
      have hmax1 : max (t + ((missing.drop t).take batchSize).length) missing.length =
          missing.length := by omega
      have hmax2 : max t missing.length = missing.length := by omega
      have hdrop : missing.drop (t + ((missing.drop t).take batchSize).length) =
          (missing.drop t).drop ((missing.drop t).take batchSize).length := by
        rw [List.drop_drop]
      rw [hc, hsub, hmax1, hmax2, hdrop]
      refine Prod.ext ?_ (Prod.ext ?_ ?_)
      · simp [hlen]
      · rfl
      · show ((missing.drop t).take batchSize).map (embeddingOfProduct now) ++
            ((missing.drop t).drop ((missing.drop t).take batchSize).length).map
              (embeddingOfProduct now) =
          (missing.drop t).map (embeddingOfProduct now)
        rw [← List.map_append, take_append_drop_length]
termination_by missing.length - t
decreasing_by omega

theorem ingestLoop_events_shape (batchSize now : Nat) (missing : List Product)
    (t : Nat) :
    ∃ ns : List Nat, (ingestLoop batchSize now missing t).1 =
      ns.map Event.ingestedBatch := by
  rw [ingestLoop]
  split
  · exact ⟨[], rfl⟩
  · next h =>
      have hpos : 0 < ((missing.drop t).take batchSize).length :=
        List.length_pos.mpr h
      have htlt : t < missing.length := by
        by_contra hc
        push_neg at hc
        rw [List.drop_eq_nil_of_le hc] at h
        simp at h
      obtain ⟨ns, hns⟩ := ingestLoop_events_shape batchSize now missing
        (t + ((missing.drop t).take batchSize).length)
      refine ⟨((missing.drop t).take batchSize).length :: ns, ?_⟩
      show Event.ingestedBatch ((missing.drop t).take batchSize).length ::
          (ingestLoop batchSize now missing
            (t + ((missing.drop t).take batchSize).length)).1 =
        List.map Event.ingestedBatch
          (((missing.drop t).take batchSize).length :: ns)
      rw [List.map_cons, hns]
termination_by missing.length - t
decreasing_by omega

theorem ingestLoop_added_mem (batchSize now : Nat) (missing : List Product)
    (t : Nat) (e : Embedding)
    (he : e ∈ (ingestLoop batchSize now missing t).2.2) :
    ∃ q ∈ missing, e = embeddingOfProduct now q := by
  rw [ingestLoop] at he
  split at he
  · simp at he
  · next h =>
      have hpos : 0 < ((missing.drop t).take batchSize).length :=
        List.length_pos.mpr h
      have htlt : t < missing.length := by
        by_contra hc
        push_neg at hc
        rw [List.drop_eq_nil_of_le hc] at h
        simp at h
      simp only [List.mem_append, List.mem_map] at he
      rcases he with ⟨q, hq, rfl⟩ | he
      · exact ⟨q, List.drop_subset t missing (List.take_subset _ _ hq), rfl⟩
      · exact ingestLoop_added_mem batchSize now missing
          (t + ((missing.drop t).take batchSize).length) e he
termination_by missing.length - t
decreasing_by omega

lemma run_events (batchSize now : Nat) (db : DB) :
    (run_product_ingestion batchSize now db).events =
      Event.deletedOrphaned (numOrphaned db) ::
        Event.deletedOutdated (numOutdated db) ::
        (ingestLoop batchSize now (missingAfterCleaning db) 0).1 := rfl

lemma run_totalIngested (batchSize now : Nat) (db : DB) :
    (run_product_ingestion batchSize now db).totalIngested =
      (ingestLoop batchSize now (missingAfterCleaning db) 0).2.1 := rfl

lemma run_orphanedCount (batchSize now : Nat) (db : DB) :
    (run_product_ingestion batchSize now db).orphanedCount = numOrphaned db := rfl

lemma run_outdatedCount (batchSize now : Nat) (db : DB) :
    (run_product_ingestion batchSize now db).outdatedCount = numOutdated db := rfl

lemma run_final (batchSize now : Nat) (db : DB) :
    (run_product_ingestion batchSize now db).final =
      { products := db.products
        embeddings := cleanedEmbeddings db ++
          (ingestLoop batchSize now (missingAfterCleaning db) 0).2.2 } := rfl

lemma chunkSizes_two_batches_plus_one (batchSize : Nat) (hB : 0 < batchSize) :
    chunkSizes batchSize (2 * batchSize + 1) = [batchSize, batchSize, 1] := by
  have h1 : min batchSize (2 * batchSize + 1) = batchSize := by omega
  have h2 : 2 * batchSize + 1 - batchSize = batchSize + 1 := by omega
  rw [chunkSizes, if_neg (by omega : ¬(batchSize = 0 ∨ 2 * batchSize + 1 = 0)), h1, h2]
  have h3 : min batchSize (batchSize + 1) = batchSize := by omega
  have h4 : batchSize + 1 - batchSize = 1 := by omega
  rw [chunkSizes, if_neg (by omega : ¬(batchSize = 0 ∨ batchSize + 1 = 0)), h3, h4]
  have h5 : min batchSize 1 = 1 := by omega
  have h6 : 1 - batchSize = 0 := by omega
  rw [chunkSizes, if_neg (by omega : ¬(batchSize = 0 ∨ 1 = 0)), h5, h6]
  rw [chunkSizes, if_pos (Or.inr rfl)]

/-- Claim C1: when the missing snapshot the run scans holds exactly
`batchSize * 2 + 1` records, the run performs exactly three ingestion
batches — two of size `batchSize` and one of size `1` — and its total
ingested count equals `batchSize * 2 + 1`. -/
theorem batch_boundary_correctness (batchSize now : Nat) (db : DB)
    (hB : 0 < batchSize)
    (hlen : (missingAfterCleaning db).length = 2 * batchSize + 1) :
    (∃ o s, (run_product_ingestion batchSize now db).events =
        [Event.deletedOrphaned o, Event.deletedOutdated s,
         Event.ingestedBatch batchSize, Event.ingestedBatch batchSize,
         Event.ingestedBatch 1]) ∧
    (run_product_ingestion batchSize now db).totalIngested =
      2 * batchSize + 1 := by
  have hspec := ingestLoop_spec batchSize now hB (missingAfterCleaning db) 0
  constructor
  · refine ⟨numOrphaned db, numOutdated db, ?_⟩
    rw [run_events, hspec]
    simp [Nat.sub_zero, hlen, chunkSizes_two_batches_plus_one batchSize hB]
  · rw [run_totalIngested, hspec]
    simp [hlen]

/-- Claim C8: every synchronizer run emits its orphan-deletion event
first, its stale-deletion event second, and after those only ingestion
batch events: no deletion happens once ingestion has begun. -/
theorem cleaning_precedes_ingestion (batchSize now : Nat) (db : DB) :
    ∃ o s ns, (run_product_ingestion batchSize now db).events =
      Event.deletedOrphaned o :: Event.deletedOutdated s ::
        List.map Event.ingestedBatch ns := by
  obtain ⟨ns, hns⟩ := ingestLoop_events_shape batchSize now (missingAfterCleaning db) 0
  exact ⟨numOrphaned db, numOutdated db, ns, by rw [run_events, hns]⟩

/-- Claim C9: from any offset, the ingestion while-loop reaches its
`done` state after finitely many iterations (at most one more than the
number of rows left in the frozen missing snapshot), because an
iteration either fetches an empty batch and exits or advances the
offset by the batch's positive length. -/
theorem ingestion_loop_terminates (batchSize : Nat) (missing : List Product)
    (t : Nat) :
    ∃ n t', n ≤ missing.length - t + 1 ∧
      (ingestStep batchSize missing)^[n] (IngestPhase.ingesting t) =
        IngestPhase.done t' := by
  by_cases h : ((missing.drop t).take batchSize).isEmpty
  · exact ⟨1, t, by omega, by simp [ingestStep, h]⟩
  · have hne : (missing.drop t).take batchSize ≠ [] := by
      simpa [List.isEmpty_iff] using h
    have hpos : 0 < ((missing.drop t).take batchSize).length :=
      List.length_pos.mpr hne
    have htlt : t < missing.length := by
      by_contra hc
      push_neg at hc
      rw [List.drop_eq_nil_of_le hc] at hne
      simp at hne
    obtain ⟨n, t', hle, hit⟩ := ingestion_loop_terminates batchSize missing
      (t + ((missing.drop t).take batchSize).length)
    refine ⟨n + 1, t', by omega, ?_⟩
    rw [Function.iterate_succ_apply]
    have hstep : ingestStep batchSize missing (IngestPhase.ingesting t) =
        IngestPhase.ingesting (t + ((missing.drop t).take batchSize).length) := by
      simp [ingestStep, h]
    rw [hstep, hit]
termination_by missing.length - t
decreasing_by omega

lemma run_final_products (batchSize now : Nat) (db : DB) :
    (run_product_ingestion batchSize now db).final.products = db.products := rfl

lemma run_final_embeddings (batchSize now : Nat) (db : DB) :
    (run_product_ingestion batchSize now db).final.embeddings =
      cleanedEmbeddings db ++
        (ingestLoop batchSize now (missingAfterCleaning db) 0).2.2 := rfl

/-- Claim C2: starting from an empty index and a catalog of records
that all have non-blank descriptions and pairwise distinct ids, one
run leaves exactly one index entry per catalog record — `N` entries in
total for `N` records, each being the entry written for its record. -/
theorem convergence (batchSize now : Nat) (db : DB) (hB : 0 < batchSize)
    (hemb : db.embeddings = [])
    (hdesc : ∀ p ∈ db.products, descriptionNotBlank p = true)
    (hids : (db.products.map Product.id).Nodup) :
    (run_product_ingestion batchSize now db).final.embeddings.length =
      db.products.length ∧
    (∀ p ∈ db.products,
      ((run_product_ingestion batchSize now db).final.embeddings.filter
        fun e => e.meta_id == p.id).length = 1) ∧
    (∀ e ∈ (run_product_ingestion batchSize now db).final.embeddings,
      ∃ p ∈ db.products, e = embeddingOfProduct now p) := by
  have hco : cleanedEmbeddings db = [] := by
    rw [cleanedEmbeddings, afterOrphans, hemb]
    rfl
  have hfilter : (db.products.filter fun p =>
      descriptionNotBlank p &&
        !((cleanedEmbeddings db).any fun e => e.meta_id == p.id)) = db.products := by
    rw [List.filter_eq_self]
    intro p hp
    rw [hco]
    simp [hdesc p hp]
  have hperm : (missingAfterCleaning db).Perm db.products := by
    have h := missingProducts_perm db.products (cleanedEmbeddings db)
    rw [hfilter] at h
    exact h
  have hspec := ingestLoop_spec batchSize now hB (missingAfterCleaning db) 0
  have hfinal : (run_product_ingestion batchSize now db).final.embeddings =
      (missingAfterCleaning db).map (embeddingOfProduct now) := by
    rw [run_final_embeddings, hco, hspec]
    simp
  refine ⟨?_, ?_, ?_⟩
  · rw [hfinal, List.length_map, hperm.length_eq]
  · intro p hp
    rw [hfinal, ← List.countP_eq_length_filter, List.countP_map]
    have h1 : List.count p.id (db.products.map Product.id) = 1 :=
      List.count_eq_one_of_mem hids (List.mem_map_of_mem Product.id hp)
    rw [List.count_eq_countP, List.countP_map] at h1
    calc List.countP ((fun e => e.meta_id == p.id) ∘ embeddingOfProduct now)
          (missingAfterCleaning db)
        = List.countP ((fun x => x == p.id) ∘ Product.id) db.products :=
          hperm.countP_eq _
      _ = 1 := h1
  · intro e he
    rw [hfinal, List.mem_map] at he
    obtain ⟨q, hq, rfl⟩ := he
    exact ⟨q, hperm.mem_iff.mp hq, rfl⟩

lemma run_inert (batchSize now2 : Nat) (P : List Product) (E : List Embedding)
    (hE : ∀ e ∈ E, existsProduct P e.meta_id = true ∧ isOutdated P e = false)
    (hmiss : missingProducts P E = [] ∨ batchSize = 0) :
    run_product_ingestion batchSize now2 ⟨P, E⟩ =
      { events := [Event.deletedOrphaned 0, Event.deletedOutdated 0]
        orphanedCount := 0
        outdatedCount := 0
        totalIngested := 0
        final := ⟨P, E⟩ } := by
  have h1 : afterOrphans ⟨P, E⟩ = E := by
    show deleteOrphaned P E = E
    rw [deleteOrphaned, List.filter_eq_self]
    exact fun e he => (hE e he).1
  have h2 : cleanedEmbeddings ⟨P, E⟩ = E := by
    show deleteOutdated P (afterOrphans ⟨P, E⟩) = E
    rw [h1, deleteOutdated, List.filter_eq_self]
    intro e he
    rw [(hE e he).2]
    rfl
  have h3 : missingAfterCleaning ⟨P, E⟩ = missingProducts P E := by
    show missingProducts P (cleanedEmbeddings ⟨P, E⟩) = missingProducts P E
    rw [h2]
  have hloop : ingestLoop batchSize now2 (missingAfterCleaning ⟨P, E⟩) 0 =
      ([], 0, []) := by
    rcases hmiss with hm | hm
    · rw [h3, hm, ingestLoop_nil]
    · rw [hm, ingestLoop_zero_batch]
  have hn1 : numOrphaned ⟨P, E⟩ = 0 := by
    show E.length - (afterOrphans ⟨P, E⟩).length = 0
    rw [h1, Nat.sub_self]
  have hn2 : numOutdated ⟨P, E⟩ = 0 := by
    show (afterOrphans ⟨P, E⟩).length - (cleanedEmbeddings ⟨P, E⟩).length = 0
    rw [h1, h2, Nat.sub_self]
  rw [run_product_ingestion, hloop, hn1, hn2, h2]
  simp

lemma mem_cleanedEmbeddings {db : DB} {e : Embedding}
    (he : e ∈ cleanedEmbeddings db) :
    e ∈ db.embeddings ∧ existsProduct db.products e.meta_id = true ∧
      isOutdated db.products e = false := by
  rw [cleanedEmbeddings, deleteOutdated, List.mem_filter] at he
  obtain ⟨he1, he2⟩ := he
  rw [afterOrphans, deleteOrphaned, List.mem_filter] at he1
  exact ⟨he1.1, he1.2, by simpa using he2⟩

lemma existsProduct_self {P : List Product} {q : Product} (hq : q ∈ P) :
    existsProduct P q.id = true := by
  rw [existsProduct, List.any_eq_true]
  exact ⟨q, hq, by simp⟩

/-- Claim C3: after one run at time `now` (with all catalog
`updated_at` stamps in the past of `now`, as the database guarantees),
a second run over the unchanged catalog deletes zero orphaned entries,
deletes zero outdated entries, ingests zero records, and leaves the
index state exactly as the first run left it. -/
theorem idempotence (batchSize now now2 : Nat) (db : DB)
    (hupd : ∀ p ∈ db.products, p.updated_at ≤ now) :
    (run_product_ingestion batchSize now2
        (run_product_ingestion batchSize now db).final).orphanedCount = 0 ∧
    (run_product_ingestion batchSize now2
        (run_product_ingestion batchSize now db).final).outdatedCount = 0 ∧
    (run_product_ingestion batchSize now2
        (run_product_ingestion batchSize now db).final).totalIngested = 0 ∧
    (run_product_ingestion batchSize now2
        (run_product_ingestion batchSize now db).final).final =
      (run_product_ingestion batchSize now db).final := by
  have hfresh : ∀ q ∈ db.products,
      isOutdated db.products (embeddingOfProduct now q) = false := by
    intro q hq
    rw [isOutdated, List.any_eq_false]
    intro p' hp'
    have hle := hupd p' hp'
    intro hcond
    rw [Bool.and_eq_true, Bool.and_eq_true] at hcond
    have hlt : now < p'.updated_at := of_decide_eq_true hcond.1.2
    omega
  have hAmem : ∀ e ∈ (ingestLoop batchSize now (missingAfterCleaning db) 0).2.2,
      ∃ q, q ∈ db.products ∧ descriptionNotBlank q = true ∧
        e = embeddingOfProduct now q := by
    intro e he
    obtain ⟨q, hq, rfl⟩ := ingestLoop_added_mem _ _ _ _ _ he
    rw [missingAfterCleaning, mem_missingProducts] at hq
    exact ⟨q, hq.1, hq.2.1, rfl⟩
  have hE : ∀ e ∈ (run_product_ingestion batchSize now db).final.embeddings,
      existsProduct db.products e.meta_id = true ∧
        isOutdated db.products e = false := by
    intro e he
    rw [run_final_embeddings, List.mem_append] at he
    rcases he with he | he
    · exact (mem_cleanedEmbeddings he).2
    · obtain ⟨q, hq, _, rfl⟩ := hAmem e he
      exact ⟨existsProduct_self hq, hfresh q hq⟩
  have hmiss2 : missingProducts db.products
      ((run_product_ingestion batchSize now db).final.embeddings) = [] ∨
      batchSize = 0 := by
    rcases Nat.eq_zero_or_pos batchSize with h0 | hBpos
    · exact Or.inr h0
    · left
      have hf : (db.products.filter fun p =>
          descriptionNotBlank p &&
            !((run_product_ingestion batchSize now db).final.embeddings.any
              fun e => e.meta_id == p.id)) = [] := by
        rw [List.filter_eq_nil_iff]
        intro p hp
        by_cases hd : descriptionNotBlank p
        · have hany : ((run_product_ingestion batchSize now db).final.embeddings.any
              fun e => e.meta_id == p.id) = true := by
            rw [run_final_embeddings, List.any_append]
            by_cases hK : ((cleanedEmbeddings db).any fun e => e.meta_id == p.id) = true
            · rw [hK]
              rfl
            · have hpm : p ∈ missingAfterCleaning db := by
                rw [missingAfterCleaning, mem_missingProducts]
                exact ⟨hp, hd, by simpa using hK⟩
              have hspec := ingestLoop_spec batchSize now hBpos
                (missingAfterCleaning db) 0
              have hmem : embeddingOfProduct now p ∈
                  (ingestLoop batchSize now (missingAfterCleaning db) 0).2.2 := by
                rw [hspec]
                simp only [List.drop_zero]
                exact List.mem_map_of_mem _ hpm
              have hA : ((ingestLoop batchSize now
                  (missingAfterCleaning db) 0).2.2.any
                    fun e => e.meta_id == p.id) = true := by
                rw [List.any_eq_true]
                exact ⟨_, hmem, by simp [embeddingOfProduct]⟩
              rw [hA, Bool.or_true]
          simp [hany]
        · simp [hd]
      unfold missingProducts
      rw [hf]
      rfl
  have hinert := run_inert batchSize now2 db.products
    ((run_product_ingestion batchSize now db).final.embeddings) hE hmiss2
  have hfix : (⟨db.products,
      (run_product_ingestion batchSize now db).final.embeddings⟩ : DB) =
      (run_product_ingestion batchSize now db).final := rfl
  rw [hfix] at hinert
  rw [hinert]
  exact ⟨rfl, rfl, rfl, rfl⟩

/-- Claim C4: an index entry created at `T0` whose catalog record (with
non-blank description) was last updated at `T1 > T0` survives the
orphan phase, is deleted by the stale-cleaning phase, is absent from
the final state, and the run re-creates an entry for the same record
whose creation timestamp is at least `T1`.  (`now`, the run time, is
at least `T1` because `updated_at` stamps lie in the past; the record
is assumed to have a single entry, the cross-store invariant.) -/
theorem staleness_correction (batchSize now : Nat) (db : DB) (p : Product)
    (e : Embedding) (hB : 0 < batchSize) (hp : p ∈ db.products)
    (hdesc : descriptionNotBlank p = true)
    (he : e ∈ db.embeddings) (hid : e.meta_id = p.id)
    (hstale : e.created_at < p.updated_at) (hnow : p.updated_at ≤ now)
    (huniq : ∀ e' ∈ db.embeddings, e'.meta_id = p.id → e' = e) :
    e ∈ afterOrphans db ∧
    e ∉ cleanedEmbeddings db ∧
    e ∉ (run_product_ingestion batchSize now db).final.embeddings ∧
    ∃ e' ∈ (run_product_ingestion batchSize now db).final.embeddings,
      e'.meta_id = p.id ∧ p.updated_at ≤ e'.created_at := by
  have hout : isOutdated db.products e = true := by
    rw [isOutdated, List.any_eq_true]
    refine ⟨p, hp, ?_⟩
    rw [Bool.and_eq_true, Bool.and_eq_true]
    exact ⟨⟨by simp [hid], by simp [hstale]⟩, hdesc⟩
  have hex : existsProduct db.products e.meta_id = true := by
    rw [existsProduct, List.any_eq_true]
    exact ⟨p, hp, by simp [hid]⟩
  have h1 : e ∈ afterOrphans db := by
    rw [afterOrphans, deleteOrphaned, List.mem_filter]
    exact ⟨he, hex⟩
  have h2 : e ∉ cleanedEmbeddings db := by
    intro hc
    have := (mem_cleanedEmbeddings hc).2.2
    rw [hout] at this
    exact absurd this (by simp)
  have hKany : ((cleanedEmbeddings db).any fun e' => e'.meta_id == p.id) = false := by
    rw [List.any_eq_false]
    intro e' he'
    obtain ⟨hmem, _, hnout⟩ := mem_cleanedEmbeddings he'
    intro hbeq
    have hq : e'.meta_id = p.id := by simpa using hbeq
    have heq := huniq e' hmem hq
    rw [heq, hout] at hnout
    exact absurd hnout (by simp)
  have hmiss : p ∈ missingAfterCleaning db := by
    rw [missingAfterCleaning, mem_missingProducts]
    exact ⟨hp, hdesc, hKany⟩
  have hspec := ingestLoop_spec batchSize now hB (missingAfterCleaning db) 0
  have hadded : embeddingOfProduct now p ∈
      (ingestLoop batchSize now (missingAfterCleaning db) 0).2.2 := by
    rw [hspec]
    simp only [List.drop_zero]
    exact List.mem_map_of_mem _ hmiss
  refine ⟨h1, h2, ?_, ?_⟩
  · rw [run_final_embeddings, List.mem_append]
    rintro (hc | hc)
    · exact h2 hc
    · obtain ⟨q, _, heq⟩ := ingestLoop_added_mem _ _ _ _ _ hc
      have hnoweq : e.created_at = now := by rw [heq]; rfl
      omega
  · refine ⟨embeddingOfProduct now p, ?_, rfl, hnow⟩
    rw [run_final_embeddings, List.mem_append]
    exact Or.inr hadded

/-- Claim C5: the orphan-cleaning phase keeps exactly the entries
whose metadata identity matches an existing catalog record, and its
reported count is the number of entries whose identity matches none;
moreover, for a collection holding a single orphaned entry (all other
entries having live, not-outdated records), one run removes exactly
that entry: the reported orphan count is 1, the orphan is gone from
the final state, and every other entry survives. -/
theorem orphan_correction :
    (∀ (P : List Product) (E : List Embedding) (e : Embedding),
        e ∈ deleteOrphaned P E ↔
          e ∈ E ∧ existsProduct P e.meta_id = true) ∧
    (∀ db : DB, numOrphaned db =
        (db.embeddings.filter fun e => !existsProduct db.products e.meta_id).length) ∧
    (∀ (batchSize now : Nat) (db : DB) (o : Embedding),
        o ∈ db.embeddings →
        (∀ p ∈ db.products, p.id ≠ o.meta_id) →
        (∀ e ∈ db.embeddings, e ≠ o →
          existsProduct db.products e.meta_id = true ∧
            isOutdated db.products e = false) →
        db.embeddings.count o = 1 →
        (run_product_ingestion batchSize now db).orphanedCount = 1 ∧
        o ∉ (run_product_ingestion batchSize now db).final.embeddings ∧
        ∀ e ∈ db.embeddings, e ≠ o →
          e ∈ (run_product_ingestion batchSize now db).final.embeddings) := by
  have hchar : ∀ (P : List Product) (E : List Embedding) (e : Embedding),
      e ∈ deleteOrphaned P E ↔ e ∈ E ∧ existsProduct P e.meta_id = true := by
    intro P E e
    rw [deleteOrphaned, List.mem_filter]
  have hcount : ∀ db : DB, numOrphaned db =
      (db.embeddings.filter fun e => !existsProduct db.products e.meta_id).length := by
    intro db
    have h := length_filter_add_length_filter_not
      (fun e => existsProduct db.products e.meta_id) db.embeddings
    rw [numOrphaned, afterOrphans, deleteOrphaned]
    omega
  refine ⟨hchar, hcount, ?_⟩
  intro batchSize now db o ho horph hothers hcnt
  have hopred : existsProduct db.products o.meta_id = false := by
    rw [existsProduct, List.any_eq_false]
    intro p hp hbeq
    exact horph p hp (by simpa using hbeq)
  have horphfilter : (db.embeddings.filter
      fun e => !existsProduct db.products e.meta_id) =
      db.embeddings.filter fun e => e == o := by
    apply List.filter_congr
    intro e he
    by_cases heo : e = o
    · rw [heo, hopred]
      simp
    · rw [(hothers e he heo).1]
      simp [heo]
  have h1 : (run_product_ingestion batchSize now db).orphanedCount = 1 := by
    rw [run_orphanedCount, hcount, horphfilter, ← List.countP_eq_length_filter]
    rw [← List.count_eq_countP]
    exact hcnt
  have honotK : o ∉ cleanedEmbeddings db := by
    intro hc
    have := (mem_cleanedEmbeddings hc).2.1
    rw [hopred] at this
    exact absurd this (by simp)
  have h2 : o ∉ (run_product_ingestion batchSize now db).final.embeddings := by
    rw [run_final_embeddings, List.mem_append]
    rintro (hc | hc)
    · exact honotK hc
    · obtain ⟨q, hq, heq⟩ := ingestLoop_added_mem _ _ _ _ _ hc
      rw [missingAfterCleaning, mem_missingProducts] at hq
      have : q.id = o.meta_id := by rw [heq]; rfl
      exact horph q hq.1 this
  refine ⟨h1, h2, ?_⟩
  intro e he heo
  rw [run_final_embeddings, List.mem_append]
  left
  rw [cleanedEmbeddings, deleteOutdated, List.mem_filter]
  constructor
  · rw [afterOrphans, deleteOrphaned, List.mem_filter]
    exact ⟨he, (hothers e he heo).1⟩
  · rw [(hothers e he heo).2]
    rfl

/-- Counterexample to claim C6 as stated: a record whose description
is the single tab character — a whitespace-only description — IS
selected as missing by the ingestion query, because SQL `TRIM` strips
only spaces, so `TRIM(description) <> ''` holds for it. -/
theorem blank_exclusion_counterexample :
    (∀ c ∈ "\t".toList, c.isWhitespace = true) ∧ "\t" ≠ "" ∧
    (⟨1, "Tent", some "\t", "Camping", 0⟩ : Product) ∈
      missingProducts [⟨1, "Tent", some "\t", "Camping", 0⟩] [] := by
  decide

/-- Claim C6 (amended): a catalog record whose description is null,
empty, or consisting only of space characters — i.e. blank in the SQL
`TRIM` sense — is never selected by the missing-products query and
hence never appears in any `LIMIT`/`OFFSET` batch handed to
`add_texts`, in any iteration of any run. -/
theorem blank_exclusion (p : Product)
    (hblank : descriptionNotBlank p = false) :
    ∀ (P : List Product) (E : List Embedding),
      p ∉ missingProducts P E ∧
      ∀ b t : Nat, p ∉ ((missingProducts P E).drop t).take b := by
  intro P E
  have h1 : p ∉ missingProducts P E := by
    intro hc
    rw [mem_missingProducts, hblank] at hc
    exact absurd hc.2.1 (by simp)
  exact ⟨h1, fun b t hc =>
    h1 (List.drop_subset _ _ (List.take_subset _ _ hc))⟩

/-- Claim C7: for every scoring function, query, `k`, category and
index contents, every result returned by `search_products` comes from
an entry whose category metadata equals the requested category — the
exact-match filter is applied before ranking, so no entry of another
category can be returned. -/
theorem filtered_search_exactness (score : String → String → Nat) (db : DB)
    (q cat : String) (k : Nat) (r : SearchResult)
    (hr : r ∈ search_products score db q cat k) :
    ∃ e ∈ db.embeddings, e.meta_category = cat ∧ r.id = e.meta_id ∧
      r.name = e.meta_name ∧ r.description = e.document := by
  rw [search_products, List.mem_map] at hr
  obtain ⟨doc, hdoc, rfl⟩ := hr
  rw [similarity_search] at hdoc
  have hdoc2 := List.take_subset _ _ hdoc
  have hdoc3 := (sortBy_perm _ _).mem_iff.mp hdoc2
  rw [List.mem_filter] at hdoc3
  exact ⟨doc, hdoc3.1, by simpa using hdoc3.2, rfl, rfl, rfl⟩

/-- Counterexample to claim C10 as stated: a record whose description
became the single tab character (whitespace-only) and was updated
after its entry's creation does NOT leave the entry untouched — the
entry is deleted by the stale-cleaning phase, because SQL `TRIM`
strips only spaces and therefore classifies the tab description as
non-blank. -/
theorem blank_description_frame_counterexample :
    (∀ c ∈ "\t".toList, c.isWhitespace = true) ∧ "\t" ≠ "" ∧
    (⟨1, "Tent", "Camping", "old text", 0⟩ : Embedding) ∈
      (⟨[⟨1, "Tent", some "\t", "Camping", 5⟩],
        [⟨1, "Tent", "Camping", "old text", 0⟩]⟩ : DB).embeddings ∧
    numOutdated ⟨[⟨1, "Tent", some "\t", "Camping", 5⟩],
        [⟨1, "Tent", "Camping", "old text", 0⟩]⟩ = 1 ∧
    (⟨1, "Tent", "Camping", "old text", 0⟩ : Embedding) ∉
      cleanedEmbeddings ⟨[⟨1, "Tent", some "\t", "Camping", 5⟩],
        [⟨1, "Tent", "Camping", "old text", 0⟩]⟩ := by
  decide

/-- Claim C10 (amended): if a catalog record still exists but its
description is null, empty, or consists only of space characters
(blank in the SQL `TRIM` sense), then any existing index entry for
that record survives a full run untouched: it is kept by the orphan
phase (its record exists), kept by the stale phase (the stale
condition requires a TRIM-non-blank description), and no new entry for
that record is ingested (blank records are never missing). -/
theorem blank_description_frame (batchSize now : Nat) (db : DB) (p : Product)
    (e : Embedding) (hp : p ∈ db.products)
    (hids : (db.products.map Product.id).Nodup)
    (hblank : descriptionNotBlank p = false)
    (he : e ∈ db.embeddings) (hid : e.meta_id = p.id) :
    e ∈ (run_product_ingestion batchSize now db).final.embeddings ∧
    ∀ e' ∈ (run_product_ingestion batchSize now db).final.embeddings,
      e'.meta_id = p.id → e' ∈ db.embeddings := by
  have hinj := List.inj_on_of_nodup_map hids
  have hnout : isOutdated db.products e = false := by
    rw [isOutdated, List.any_eq_false]
    intro q hq hcond
    rw [Bool.and_eq_true, Bool.and_eq_true] at hcond
    have hqid : q.id = p.id := by
      have h : q.id = e.meta_id := by simpa using hcond.1.1
      rw [h, hid]
    have hqp : q = p := hinj hq hp hqid
    rw [hqp, hblank] at hcond
    exact absurd hcond.2 (by simp)
  have h1 : e ∈ cleanedEmbeddings db := by
    rw [cleanedEmbeddings, deleteOutdated, List.mem_filter]
    refine ⟨?_, by rw [hnout]; rfl⟩
    rw [afterOrphans, deleteOrphaned, List.mem_filter]
    refine ⟨he, ?_⟩
    rw [hid]
    exact existsProduct_self hp
  constructor
  · rw [run_final_embeddings, List.mem_append]
    exact Or.inl h1
  · intro e' he' hid'
    rw [run_final_embeddings, List.mem_append] at he'
    rcases he' with he' | he'
    · exact (mem_cleanedEmbeddings he').1
    · obtain ⟨q, hq, rfl⟩ := ingestLoop_added_mem _ _ _ _ _ he'
      rw [missingAfterCleaning, mem_missingProducts] at hq
      have hqp : q = p := hinj hq.1 hp hid'
      rw [hqp, hblank] at hq
      exact absurd hq.2.1 (by simp)

theorem batch_boundary_correctness_witness :
    0 < 1 ∧
    (missingAfterCleaning ⟨[⟨1, "", some "x", "", 0⟩, ⟨2, "", some "y", "", 0⟩,
        ⟨3, "", some "z", "", 0⟩], []⟩).length = 2 * 1 + 1 ∧
    ((∃ o s, (run_product_ingestion 1 0 ⟨[⟨1, "", some "x", "", 0⟩,
          ⟨2, "", some "y", "", 0⟩, ⟨3, "", some "z", "", 0⟩], []⟩).events =
        [Event.deletedOrphaned o, Event.deletedOutdated s,
         Event.ingestedBatch 1, Event.ingestedBatch 1, Event.ingestedBatch 1]) ∧
      (run_product_ingestion 1 0 ⟨[⟨1, "", some "x", "", 0⟩,
          ⟨2, "", some "y", "", 0⟩, ⟨3, "", some "z", "", 0⟩], []⟩).totalIngested =
        2 * 1 + 1) :=
  ⟨by decide, by decide,
    batch_boundary_correctness 1 0 _ (by decide) (by decide)⟩

theorem convergence_witness :
    (0 < 2 ∧
      (⟨[⟨1, "", some "x", "", 0⟩, ⟨2, "", some "y", "", 0⟩], []⟩ : DB).embeddings = [] ∧
      (∀ p ∈ (⟨[⟨1, "", some "x", "", 0⟩, ⟨2, "", some "y", "", 0⟩], []⟩ : DB).products,
        descriptionNotBlank p = true) ∧
      ((⟨[⟨1, "", some "x", "", 0⟩, ⟨2, "", some "y", "", 0⟩], []⟩ : DB).products.map
        Product.id).Nodup) ∧
    ((run_product_ingestion 2 7 ⟨[⟨1, "", some "x", "", 0⟩,
        ⟨2, "", some "y", "", 0⟩], []⟩).final.embeddings.length =
      (⟨[⟨1, "", some "x", "", 0⟩, ⟨2, "", some "y", "", 0⟩], []⟩ : DB).products.length ∧
    (∀ p ∈ (⟨[⟨1, "", some "x", "", 0⟩, ⟨2, "", some "y", "", 0⟩], []⟩ : DB).products,
      ((run_product_ingestion 2 7 ⟨[⟨1, "", some "x", "", 0⟩,
          ⟨2, "", some "y", "", 0⟩], []⟩).final.embeddings.filter
        fun e => e.meta_id == p.id).length = 1) ∧
    (∀ e ∈ (run_product_ingestion 2 7 ⟨[⟨1, "", some "x", "", 0⟩,
        ⟨2, "", some "y", "", 0⟩], []⟩).final.embeddings,
      ∃ p ∈ (⟨[⟨1, "", some "x", "", 0⟩, ⟨2, "", some "y", "", 0⟩], []⟩ : DB).products,
        e = embeddingOfProduct 7 p)) :=
  ⟨⟨by decide, rfl, by decide, by decide⟩,
    convergence 2 7 _ (by decide) rfl (by decide) (by decide)⟩

theorem idempotence_witness :
    (∀ p ∈ (⟨[⟨1, "", some "x", "", 3⟩], []⟩ : DB).products, p.updated_at ≤ 5) ∧
    ((run_product_ingestion 1 9
        (run_product_ingestion 1 5 ⟨[⟨1, "", some "x", "", 3⟩], []⟩).final).orphanedCount = 0 ∧
    (run_product_ingestion 1 9
        (run_product_ingestion 1 5 ⟨[⟨1, "", some "x", "", 3⟩], []⟩).final).outdatedCount = 0 ∧
    (run_product_ingestion 1 9
        (run_product_ingestion 1 5 ⟨[⟨1, "", some "x", "", 3⟩], []⟩).final).totalIngested = 0 ∧
    (run_product_ingestion 1 9
        (run_product_ingestion 1 5 ⟨[⟨1, "", some "x", "", 3⟩], []⟩).final).final =
      (run_product_ingestion 1 5 ⟨[⟨1, "", some "x", "", 3⟩], []⟩).final) :=
  ⟨by decide, idempotence 1 5 9 _ (by decide)⟩

theorem staleness_correction_witness :
    (0 < 1 ∧ (⟨1, "", some "x", "", 5⟩ : Product) ∈
        (⟨[⟨1, "", some "x", "", 5⟩], [⟨1, "", "", "old", 2⟩]⟩ : DB).products ∧
      descriptionNotBlank ⟨1, "", some "x", "", 5⟩ = true ∧
      (⟨1, "", "", "old", 2⟩ : Embedding) ∈
        (⟨[⟨1, "", some "x", "", 5⟩], [⟨1, "", "", "old", 2⟩]⟩ : DB).embeddings ∧
      (2 : Nat) < 5 ∧ (5 : Nat) ≤ 9) ∧
    ((⟨1, "", "", "old", 2⟩ : Embedding) ∈
        afterOrphans ⟨[⟨1, "", some "x", "", 5⟩], [⟨1, "", "", "old", 2⟩]⟩ ∧
      (⟨1, "", "", "old", 2⟩ : Embedding) ∉
        cleanedEmbeddings ⟨[⟨1, "", some "x", "", 5⟩], [⟨1, "", "", "old", 2⟩]⟩ ∧
      (⟨1, "", "", "old", 2⟩ : Embedding) ∉
        (run_product_ingestion 1 9
          ⟨[⟨1, "", some "x", "", 5⟩], [⟨1, "", "", "old", 2⟩]⟩).final.embeddings ∧
      ∃ e' ∈ (run_product_ingestion 1 9
          ⟨[⟨1, "", some "x", "", 5⟩], [⟨1, "", "", "old", 2⟩]⟩).final.embeddings,
        e'.meta_id = (⟨1, "", some "x", "", 5⟩ : Product).id ∧
          (⟨1, "", some "x", "", 5⟩ : Product).updated_at ≤ e'.created_at) :=
  ⟨⟨by decide, by decide, by decide, by decide, by decide, by decide⟩,
    staleness_correction 1 9 _ _ _ (by decide) (by decide) (by decide)
      (by decide) rfl (by decide) (by decide) (by decide)⟩

theorem orphan_correction_witness :
    ((⟨2, "", "", "gone", 0⟩ : Embedding) ∈
        (⟨[⟨1, "", some "x", "", 0⟩],
          [⟨2, "", "", "gone", 0⟩, ⟨1, "", "", "x", 3⟩]⟩ : DB).embeddings ∧
      (⟨[⟨1, "", some "x", "", 0⟩],
        [⟨2, "", "", "gone", 0⟩, ⟨1, "", "", "x", 3⟩]⟩ : DB).embeddings.count
          ⟨2, "", "", "gone", 0⟩ = 1) ∧
    ((run_product_ingestion 1 4 ⟨[⟨1, "", some "x", "", 0⟩],
        [⟨2, "", "", "gone", 0⟩, ⟨1, "", "", "x", 3⟩]⟩).orphanedCount = 1 ∧
      (⟨2, "", "", "gone", 0⟩ : Embedding) ∉
        (run_product_ingestion 1 4 ⟨[⟨1, "", some "x", "", 0⟩],
          [⟨2, "", "", "gone", 0⟩, ⟨1, "", "", "x", 3⟩]⟩).final.embeddings ∧
      ∀ e ∈ (⟨[⟨1, "", some "x", "", 0⟩],
          [⟨2, "", "", "gone", 0⟩, ⟨1, "", "", "x", 3⟩]⟩ : DB).embeddings,
        e ≠ ⟨2, "", "", "gone", 0⟩ →
          e ∈ (run_product_ingestion 1 4 ⟨[⟨1, "", some "x", "", 0⟩],
            [⟨2, "", "", "gone", 0⟩, ⟨1, "", "", "x", 3⟩]⟩).final.embeddings) :=
  ⟨⟨by decide, by decide⟩,
    orphan_correction.2.2 1 4 _ _ (by decide) (by decide) (by decide) (by decide)⟩

theorem blank_exclusion_witness :
    descriptionNotBlank ⟨2, "", some " ", "", 0⟩ = false ∧
    ((⟨2, "", some " ", "", 0⟩ : Product) ∉
        missingProducts [⟨2, "", some " ", "", 0⟩] [] ∧
      ∀ b t : Nat, (⟨2, "", some " ", "", 0⟩ : Product) ∉
        ((missingProducts [⟨2, "", some " ", "", 0⟩] []).drop t).take b) :=
  ⟨by decide, blank_exclusion _ (by decide) _ _⟩

theorem filtered_search_exactness_witness :
    (⟨2, "B", "boot"⟩ : SearchResult) ∈
      search_products (fun _ _ => 0)
        ⟨[], [⟨1, "J", "Apparel", "warm", 0⟩, ⟨2, "B", "Footwear", "boot", 0⟩]⟩
        "q" "Footwear" 5 ∧
    ∃ e ∈ (⟨[], [⟨1, "J", "Apparel", "warm", 0⟩,
        ⟨2, "B", "Footwear", "boot", 0⟩]⟩ : DB).embeddings,
      e.meta_category = "Footwear" ∧
        (⟨2, "B", "boot"⟩ : SearchResult).id = e.meta_id ∧
        (⟨2, "B", "boot"⟩ : SearchResult).name = e.meta_name ∧
        (⟨2, "B", "boot"⟩ : SearchResult).description = e.document :=
  ⟨by decide,
    filtered_search_exactness (fun _ _ => 0) _ "q" "Footwear" 5 _ (by decide)⟩

theorem blank_description_frame_witness :
    ((⟨1, "", some " ", "", 5⟩ : Product) ∈
        (⟨[⟨1, "", some " ", "", 5⟩], [⟨1, "", "", "old", 0⟩]⟩ : DB).products ∧
      descriptionNotBlank ⟨1, "", some " ", "", 5⟩ = false ∧
      (⟨1, "", "", "old", 0⟩ : Embedding) ∈
        (⟨[⟨1, "", some " ", "", 5⟩], [⟨1, "", "", "old", 0⟩]⟩ : DB).embeddings) ∧
    ((⟨1, "", "", "old", 0⟩ : Embedding) ∈
        (run_product_ingestion 1 9
          ⟨[⟨1, "", some " ", "", 5⟩], [⟨1, "", "", "old", 0⟩]⟩).final.embeddings ∧
      ∀ e' ∈ (run_product_ingestion 1 9
          ⟨[⟨1, "", some " ", "", 5⟩], [⟨1, "", "", "old", 0⟩]⟩).final.embeddings,
        e'.meta_id = (⟨1, "", some " ", "", 5⟩ : Product).id →
          e' ∈ (⟨[⟨1, "", some " ", "", 5⟩],
            [⟨1, "", "", "old", 0⟩]⟩ : DB).embeddings) :=
  ⟨⟨by decide, by decide, by decide⟩,
    blank_description_frame 1 9 _ _ _ (by decide) (by decide) (by decide)
      (by decide) rfl⟩
